import Mathlib

/-!
Verification of the ipguide network index (`ipguide.py`).

The development shallowly embeds the two components the claims are about:

* `NetTree` — the binary trie of `class NetTree` (`self.tree` is a triple
  `[child0, child1, data]`); `NetTree.insertBits` and `NetTree.searchBits`
  model the bit-walking loops of `NetTree.insert` / `NetTree.search`,
  after the address has been canonicalized to its bit string.
* `PNet` — a parsed IPv4/IPv6 network (family, 128-bit integer address,
  and the mapped bit string computed exactly as
  `f"{int(net.network_address):0128b}"[:net.prefixlen]` after the
  IPv4-mapped embedding `::ffff:.../{plen+96}`).
* `Database` / `loadRows` — the dictionary state built by
  `IPGuide.load_database` row by row, together with the lookup methods
  `find_network`, `networks_for_asn`, `find_asn`, `find_country` and
  `get_networks`.

String-to-number parsing of network literals is performed by the Python
standard library (`ipaddress.ip_network`), which is outside this
repository; a row therefore carries its network text together with the
parse result the standard library would produce (`NetStr`). Python's
`int()` on the ASN field is modelled by `pyInt`.
-/

/-- A trie node, modelling the Python list `[child0, child1, data]`;
`none` children model `None`. -/
inductive NetTree (α : Type) : Type where
  | mk (c0 : Option (NetTree α)) (c1 : Option (NetTree α)) (data : Option α) : NetTree α

/-- The empty node `[None, None, None]` created by `NetTree.__init__` and
by `here[b] = [None, None, None]` during insertion. -/
def NetTree.empty {α : Type} : NetTree α := .mk none none none

/-- Child selection `here[b]` for a bit `b`. -/
def NetTree.child {α : Type} : NetTree α → Bool → Option (NetTree α)
  | .mk c0 _ _, false => c0
  | .mk _ c1 _, true => c1

/-- The attached record `here[2]`. -/
def NetTree.dataOf {α : Type} : NetTree α → Option α
  | .mk _ _ d => d

/-- Descend into a child, creating `[None, None, None]` when absent
(`if here[b] is None: here[b] = [None, None, None]`). -/
def NetTree.orEmpty {α : Type} : Option (NetTree α) → NetTree α
  | some t => t
  | none => NetTree.empty

/-- The walking loop of `NetTree.insert`: consume the prefix bits one at a
time, creating missing nodes, and attach `data` (`here[2] = data`) at the
node reached after the last bit. -/
def NetTree.insertBits {α : Type} : NetTree α → List Bool → α → NetTree α
  | .mk c0 c1 _, [], a => .mk c0 c1 (some a)
  | .mk c0 c1 d, false :: bs, a =>
      .mk (some (NetTree.insertBits (NetTree.orEmpty c0) bs a)) c1 d
  | .mk c0 c1 d, true :: bs, a =>
      .mk c0 (some (NetTree.insertBits (NetTree.orEmpty c1) bs a)) d

/-- The walking loop of `NetTree.search`: `net = None`; for each bit,
first `if here[2]: net = here[2]`, then stop if the child is absent, else
descend; finally return `net`.  Note the loop never examines the record of
the node reached after the final bit. -/
def NetTree.searchBits {α : Type} : NetTree α → List Bool → Option α → Option α
  | _, [], best => best
  | t, b :: bs, best =>
      let best2 := match NetTree.dataOf t with
        | some v => some v
        | none => best
      match NetTree.child t b with
      | none => best2
      | some c => NetTree.searchBits c bs best2

/-- Observation: the node reached by following a bit path, if it exists. -/
def NetTree.nodeAt {α : Type} : NetTree α → List Bool → Option (NetTree α)
  | t, [] => some t
  | t, b :: bs =>
      match NetTree.child t b with
      | none => none
      | some c => NetTree.nodeAt c bs

/-- Observation: the record attached at the node reached by a bit path
(`none` both when the node is absent and when it carries no record). -/
def NetTree.dataAt {α : Type} : NetTree α → List Bool → Option α
  | t, [] => NetTree.dataOf t
  | t, b :: bs =>
      match NetTree.child t b with
      | none => none
      | some c => NetTree.dataAt c bs

/-- First-some choice on options (Python `x if x else y` for truthy
records; every record stored by this program is a non-empty tuple). -/
def oget {α : Type} : Option α → Option α → Option α
  | some x, _ => some x
  | none, y => y

/-- Reference form of the search loop without the accumulator: the record
found at the deepest examined node on the path, where the node after the
final bit is not examined. -/
def NetTree.searchAux {α : Type} : NetTree α → List Bool → Option α
  | _, [] => none
  | t, b :: bs =>
      match NetTree.child t b with
      | none => NetTree.dataOf t
      | some c => oget (NetTree.searchAux c bs) (NetTree.dataOf t)

theorem oget_none {α : Type} (a : Option α) : oget a none = a := by
  cases a <;> rfl

theorem oget_assoc {α : Type} (a b c : Option α) :
    oget (oget a b) c = oget a (oget b c) := by
  cases a <;> rfl

theorem searchBits_eq_oget {α : Type} (q : List Bool) (t : NetTree α) (best : Option α) :
    NetTree.searchBits t q best = oget (NetTree.searchAux t q) best := by
  induction q generalizing t best with
  | nil => rfl
  | cons b bs ih =>
      cases t with
      | mk c0 c1 d =>
        have hstep : NetTree.searchBits (NetTree.mk c0 c1 d) (b :: bs) best =
            match NetTree.child (NetTree.mk c0 c1 d) b with
            | none => oget d best
            | some c => NetTree.searchBits c bs (oget d best) := by
          cases b <;> cases d <;> rfl
        have hstep2 : NetTree.searchAux (NetTree.mk c0 c1 d) (b :: bs) =
            match NetTree.child (NetTree.mk c0 c1 d) b with
            | none => d
            | some c => oget (NetTree.searchAux c bs) d := by
          cases b <;> rfl
        rw [hstep, hstep2]
        cases NetTree.child (NetTree.mk c0 c1 d) b with
        | none => rfl
        | some c =>
            dsimp only
            rw [ih, oget_assoc]

theorem searchBits_none_eq {α : Type} (t : NetTree α) (q : List Bool) :
    NetTree.searchBits t q none = NetTree.searchAux t q := by
  rw [searchBits_eq_oget, oget_none]

theorem dataAt_empty {α : Type} (q : List Bool) :
    NetTree.dataAt (NetTree.empty (α := α)) q = none := by
  cases q with
  | nil => rfl
  | cons b bs => cases b <;> rfl

theorem nodeAt_empty_cons {α : Type} (b : Bool) (bs : List Bool) :
    NetTree.nodeAt (NetTree.empty (α := α)) (b :: bs) = none := by
  cases b <;> rfl

/-- Inserting at path `p` attaches the record at `p` and changes the record
of no other node. -/
theorem dataAt_insert {α : Type} (p : List Bool) (t : NetTree α) (a : α)
    (q : List Bool) :
    NetTree.dataAt (NetTree.insertBits t p a) q =
      if q = p then some a else NetTree.dataAt t q := by
  induction p generalizing t q with
  | nil =>
      cases t with
      | mk c0 c1 d =>
        cases q with
        | nil => rfl
        | cons qb qbs =>
            rw [if_neg (List.cons_ne_nil qb qbs)]
            cases qb <;> rfl
  | cons pb pbs ih =>
      cases t with
      | mk c0 c1 d =>
        cases q with
        | nil =>
            rw [if_neg (by simp)]
            cases pb <;> rfl
        | cons qb qbs =>
            cases pb <;> cases qb
            case false.true | true.false =>
              rw [if_neg (by simp)]
              rfl
            case false.false =>
              have h1 : NetTree.dataAt
                  (NetTree.insertBits (NetTree.mk c0 c1 d) (false :: pbs) a)
                  (false :: qbs) =
                  NetTree.dataAt (NetTree.insertBits (NetTree.orEmpty c0) pbs a) qbs := rfl
              rw [h1, ih]
              by_cases hq : qbs = pbs
              · simp [hq]
              · rw [if_neg hq, if_neg (by simp [hq])]
                cases c0 with
                | none => rw [show NetTree.orEmpty (α := α) none = NetTree.empty from rfl,
                    dataAt_empty]; rfl
                | some cc => rfl
            case true.true =>
              have h1 : NetTree.dataAt
                  (NetTree.insertBits (NetTree.mk c0 c1 d) (true :: pbs) a)
                  (true :: qbs) =
                  NetTree.dataAt (NetTree.insertBits (NetTree.orEmpty c1) pbs a) qbs := rfl
              rw [h1, ih]
              by_cases hq : qbs = pbs
              · simp [hq]
              · rw [if_neg hq, if_neg (by simp [hq])]
                cases c1 with
                | none => rw [show NetTree.orEmpty (α := α) none = NetTree.empty from rfl,
                    dataAt_empty]; rfl
                | some cc => rfl

/-- Inserting at path `p` leaves the node (with its whole subtree) at every
path that is not a prefix of `p` untouched. -/
theorem nodeAt_insert_off {α : Type} (p : List Bool) (t : NetTree α) (a : α)
    (q : List Bool) (h : p.take q.length ≠ q) :
    NetTree.nodeAt (NetTree.insertBits t p a) q = NetTree.nodeAt t q := by
  induction p generalizing t q with
  | nil =>
      cases t with
      | mk c0 c1 d =>
        cases q with
        | nil => simp at h
        | cons qb qbs => cases qb <;> rfl
  | cons pb pbs ih =>
      cases t with
      | mk c0 c1 d =>
        cases q with
        | nil => simp at h
        | cons qb qbs =>
            cases pb <;> cases qb
            case false.true | true.false => rfl
            case false.false =>
              have h2 : pbs.take qbs.length ≠ qbs := by
                simpa [List.take] using h
              have h1 : NetTree.nodeAt
                  (NetTree.insertBits (NetTree.mk c0 c1 d) (false :: pbs) a)
                  (false :: qbs) =
                  NetTree.nodeAt (NetTree.insertBits (NetTree.orEmpty c0) pbs a) qbs := rfl
              rw [h1, ih _ _ h2]
              cases c0 with
              | none =>
                  cases qbs with
                  | nil => simp at h2
                  | cons b bs =>
                      rw [show NetTree.orEmpty (α := α) none = NetTree.empty from rfl,
                        nodeAt_empty_cons]
                      rfl
              | some cc => rfl
            case true.true =>
              have h2 : pbs.take qbs.length ≠ qbs := by
                simpa [List.take] using h
              have h1 : NetTree.nodeAt
                  (NetTree.insertBits (NetTree.mk c0 c1 d) (true :: pbs) a)
                  (true :: qbs) =
                  NetTree.nodeAt (NetTree.insertBits (NetTree.orEmpty c1) pbs a) qbs := rfl
              rw [h1, ih _ _ h2]
              cases c1 with
              | none =>
                  cases qbs with
                  | nil => simp at h2
                  | cons b bs =>
                      rw [show NetTree.orEmpty (α := α) none = NetTree.empty from rfl,
                        nodeAt_empty_cons]
                      rfl
              | some cc => rfl

/-- Unfolding of `dataAt` through an existing child. -/
theorem dataAt_cons_child {α : Type} (t : NetTree α) (b : Bool) (bs : List Bool)
    (c : NetTree α) (hc : NetTree.child t b = some c) :
    NetTree.dataAt t (b :: bs) = NetTree.dataAt c bs := by
  cases t with
  | mk c0 c1 d => cases b <;> simp_all [NetTree.dataAt, NetTree.child]

theorem dataAt_cons_none {α : Type} (t : NetTree α) (b : Bool) (bs : List Bool)
    (hc : NetTree.child t b = none) :
    NetTree.dataAt t (b :: bs) = none := by
  cases t with
  | mk c0 c1 d => cases b <;> simp_all [NetTree.dataAt, NetTree.child]

/-- If no examined node on the path carries a record, the search finds
nothing. -/
theorem searchAux_none {α : Type} (q : List Bool) (t : NetTree α)
    (h : ∀ k, k < q.length → NetTree.dataAt t (q.take k) = none) :
    NetTree.searchAux t q = none := by
  induction q generalizing t with
  | nil => rfl
  | cons b bs ih =>
      have hd : NetTree.dataOf t = none := h 0 (Nat.succ_pos _)
      cases t with
      | mk c0 c1 d =>
        have hstep : NetTree.searchAux (NetTree.mk c0 c1 d) (b :: bs) =
            match NetTree.child (NetTree.mk c0 c1 d) b with
            | none => d
            | some c => oget (NetTree.searchAux c bs) d := by
          cases b <;> rfl
        rw [hstep]
        have hd2 : d = none := hd
        cases hc : NetTree.child (NetTree.mk c0 c1 d) b with
        | none => exact hd2
        | some c =>
            have hrec : NetTree.searchAux c bs = none := by
              refine ih c (fun k hk => ?_)
              have := h (k + 1) (by simpa using Nat.succ_lt_succ hk)
              rwa [List.take_succ_cons,
                dataAt_cons_child (NetTree.mk c0 c1 d) b _ c hc] at this
            dsimp only
            rw [hrec, hd2]
            rfl

/-- Whatever the search finds was a record at some examined node of the
path: a node at depth strictly below the query length. -/
theorem searchAux_found {α : Type} (q : List Bool) (t : NetTree α) (r : α)
    (h : NetTree.searchAux t q = some r) :
    ∃ k, k < q.length ∧ NetTree.dataAt t (q.take k) = some r := by
  induction q generalizing t with
  | nil => exact absurd h (by simp [NetTree.searchAux])
  | cons b bs ih =>
      cases t with
      | mk c0 c1 d =>
        have hstep : NetTree.searchAux (NetTree.mk c0 c1 d) (b :: bs) =
            match NetTree.child (NetTree.mk c0 c1 d) b with
            | none => d
            | some c => oget (NetTree.searchAux c bs) d := by
          cases b <;> rfl
        rw [hstep] at h
        cases hc : NetTree.child (NetTree.mk c0 c1 d) b with
        | none =>
            rw [hc] at h
            exact ⟨0, Nat.succ_pos _, h⟩
        | some c =>
            rw [hc] at h
            dsimp only at h
            cases hs : NetTree.searchAux c bs with
            | some r2 =>
                rw [hs] at h
                simp only [oget] at h
                cases h
                obtain ⟨k, hk, hdata⟩ := ih c hs
                refine ⟨k + 1, by simpa using Nat.succ_lt_succ hk, ?_⟩
                rw [List.take_succ_cons,
                  dataAt_cons_child (NetTree.mk c0 c1 d) b _ c hc]
                exact hdata
            | none =>
                rw [hs] at h
                simp only [oget] at h
                exact ⟨0, Nat.succ_pos _, h⟩

/-- If a record sits at examined depth `k` of the path and every deeper
examined node is empty, the search returns exactly that record. -/
theorem searchAux_deepest {α : Type} (q : List Bool) (t : NetTree α) (k : Nat)
    (r : α) (hk : k < q.length) (hdata : NetTree.dataAt t (q.take k) = some r)
    (hdeep : ∀ j, j < q.length → k < j → NetTree.dataAt t (q.take j) = none) :
    NetTree.searchAux t q = some r := by
  induction q generalizing t k with
  | nil => exact absurd hk (Nat.not_lt_zero _)
  | cons b bs ih =>
      cases t with
      | mk c0 c1 d =>
        have hstep : NetTree.searchAux (NetTree.mk c0 c1 d) (b :: bs) =
            match NetTree.child (NetTree.mk c0 c1 d) b with
            | none => d
            | some c => oget (NetTree.searchAux c bs) d := by
          cases b <;> rfl
        rw [hstep]
        cases k with
        | zero =>
            have hd : d = some r := hdata
            cases hc : NetTree.child (NetTree.mk c0 c1 d) b with
            | none => exact hd
            | some c =>
                have hrec : NetTree.searchAux c bs = none := by
                  refine searchAux_none bs c (fun j hj => ?_)
                  have := hdeep (j + 1) (by simpa using Nat.succ_lt_succ hj)
                    (Nat.succ_pos _)
                  rwa [List.take_succ_cons,
                    dataAt_cons_child (NetTree.mk c0 c1 d) b _ c hc] at this
                dsimp only
                rw [hrec, hd]
                rfl
        | succ k0 =>
            rw [List.take_succ_cons] at hdata
            cases hc : NetTree.child (NetTree.mk c0 c1 d) b with
            | none =>
                rw [dataAt_cons_none (NetTree.mk c0 c1 d) b _ hc] at hdata
                exact absurd hdata (by simp)
            | some c =>
                rw [dataAt_cons_child (NetTree.mk c0 c1 d) b _ c hc] at hdata
                have hrec : NetTree.searchAux c bs = some r := by
                  refine ih c k0 (by simpa using Nat.lt_of_succ_lt_succ hk)
                    hdata (fun j hj hkj => ?_)
                  have := hdeep (j + 1) (by simpa using Nat.succ_lt_succ hj)
                    (Nat.succ_lt_succ hkj)
                  rwa [List.take_succ_cons,
                    dataAt_cons_child (NetTree.mk c0 c1 d) b _ c hc] at this
                dsimp only
                rw [hrec]
                rfl

/-- Bit `i` (most significant first) of the binary rendering
`f"{addr:0128b}"`: character `i` is bit `127 - i` of the integer. -/
def bitOfAddr (addr : Nat) (i : Nat) : Bool :=
  addr / 2 ^ (127 - i) % 2 == 1

/-- The first `plen` characters of `f"{int(net.network_address):0128b}"`,
as the list of bits the trie walks. -/
def toBits (addr plen : Nat) : List Bool :=
  (List.range plen).map (bitOfAddr addr)

/-- The integer value of the IPv4-mapped IPv6 address
`::ffff:a.b.c.d` built by `ip_network(f"::ffff:{net.network_address}/...")`. -/
def v4mapped (a : Nat) : Nat := 0xffff * 2 ^ 32 + a

/-- A parsed network as `ipaddress.ip_network` returns it: the address
family, the integer value of `network_address`, and `prefixlen`. -/
structure PNet where
  isV4 : Bool
  addr : Nat
  plen : Nat
deriving DecidableEq

/-- Canonical trie path of a parsed network: the IPv4 branch performs the
embedding `ip_network(f"::ffff:{...}/{prefixlen + 96}")` of
`NetTree.insert` / `NetTree.search`, the IPv6 branch uses the network
unchanged; then the first `prefixlen` bits of the 128-bit address. -/
def PNet.bits (n : PNet) : List Bool :=
  if n.isV4 then toBits (v4mapped n.addr) (n.plen + 96) else toBits n.addr n.plen

/-- `NetTree.insert` after parsing: canonicalize, then walk. -/
def NetTree.insert {α : Type} (t : NetTree α) (n : PNet) (d : α) : NetTree α :=
  NetTree.insertBits t n.bits d

/-- `NetTree.search` after parsing: canonicalize, then walk with `net = None`. -/
def NetTree.search {α : Type} (t : NetTree α) (n : PNet) : Option α :=
  NetTree.searchBits t n.bits none

/-- The integer value of a dotted quad `a.b.c.d`. -/
def v4 (a b c d : Nat) : Nat := ((a * 256 + b) * 256 + c) * 256 + d

/-- The parsed network for a bare IPv4 host address string, as
`ip_network("a.b.c.d")` yields: a `/32` network. -/
def hostV4 (a : Nat) : PNet := ⟨true, a, 32⟩

theorem toBits_length (addr plen : Nat) : (toBits addr plen).length = plen := by
  simp [toBits]

theorem bits_length_hostV4 (a : Nat) : (hostV4 a).bits.length = 128 := by
  simp [hostV4, PNet.bits, toBits_length]

/-- Digits of a Python integer literal, allowing a single underscore
between digits (`int("1_0") == 10`), accumulating the value. -/
def digitsGo (acc : Nat) : List Char → Option Nat
  | [] => some acc
  | c :: rest =>
      if c.isDigit then digitsGo (10 * acc + (c.toNat - 48)) rest
      else if c = '_' then
        match rest with
        | [] => none
        | d :: rest2 =>
            if d.isDigit then digitsGo (10 * acc + (d.toNat - 48)) rest2 else none
      else none

/-- Value of a non-empty digit group (must start with a digit). -/
def digitsVal : List Char → Option Nat
  | [] => none
  | c :: rest => if c.isDigit then digitsGo (c.toNat - 48) rest else none

/-- Python `str.strip()` of surrounding whitespace as `int()` performs it. -/
def pyStrip (cs : List Char) : List Char :=
  ((cs.dropWhile Char.isWhitespace).reverse.dropWhile Char.isWhitespace).reverse

/-- Python `int(s)`: strip whitespace, optional sign, digit group;
`none` models `ValueError`. -/
def pyInt (s : String) : Option Int :=
  match pyStrip s.data with
  | '+' :: rest => Option.map (fun n => (n : Int)) (digitsVal rest)
  | '-' :: rest => Option.map (fun n => -(n : Int)) (digitsVal rest)
  | cs => Option.map (fun n => (n : Int)) (digitsVal cs)

/-- Python `s.startswith(p)`. -/
def strStarts (s p : String) : Bool :=
  s.data.take p.data.length == p.data

/-- Characters strictly after the first colon. -/
def afterColon : List Char → List Char
  | [] => []
  | c :: rest => if c = ':' then rest else afterColon rest

/-- Characters up to (excluding) the next colon. -/
def upToColon : List Char → List Char
  | [] => []
  | c :: rest => if c = ':' then [] else c :: upToColon rest

/-- Python `s.split(':')[1]` for a string containing a colon (the only way
it is called: behind `s.startswith('ASN:')`). -/
def splitSecond (s : String) : String :=
  ⟨upToColon (afterColon s.data)⟩

set_option maxRecDepth 10000

/-- The record tuple `(network_string, asn, country)` attached to trie
nodes by `load_database`. -/
abbrev NetRec := String × Int × String

/-- The value of `self.database['asn'][asn]`. -/
structure ASNEntry where
  name : String
  country : String
  networks : List String
deriving DecidableEq

/-- Lookup in a Python dict modelled as an association list. -/
def alistLookup {κ β : Type} [DecidableEq κ] : List (κ × β) → κ → Option β
  | [], _ => none
  | (k, v) :: rest, key => if key = k then some v else alistLookup rest key

/-- Assignment `d[key] = v` in a Python dict: update in place, or append a
new key. -/
def alistSet {κ β : Type} [DecidableEq κ] : List (κ × β) → κ → β → List (κ × β)
  | [], key, v => [(key, v)]
  | (k, w) :: rest, key, v =>
      if key = k then (k, v) :: rest else (k, w) :: alistSet rest key v

/-- The state `self.database`: the trie plus the `'asn'` and `'country'`
dictionaries. -/
structure Database where
  network : NetTree NetRec
  asn : List (Int × ASNEntry)
  country : List (String × List Int)

/-- The freshly initialised `self.database` of `load_database`. -/
def emptyDB : Database := ⟨NetTree.empty, [], []⟩

/-- A network string together with the parse `ipaddress.ip_network` (the
Python standard library, external to this repository) produces for it;
`none` models a `ValueError`. -/
structure NetStr where
  text : String
  parse : Option PNet

/-- One CSV data row as `load_database` reads it:
`row[0]` network, `row[1]` ASN text, `row[2]` organization name,
`row[3]` country code. -/
structure Row where
  network : NetStr
  asnField : String
  orgName : String
  country : String

/-- The header test `row[0] == 'network'`. -/
def isHeaderRow (r : Row) : Bool := r.network.text == "network"

/-- The exception aborting `load_database` on a malformed row:
`ValueError` from `int(row[1])` or from `ip_network(row[0])`. -/
inductive LoadError where
  | badASN : String → LoadError
  | badNet : String → LoadError
deriving DecidableEq

/-- The hard-coded private ranges of `load_database`, with their parses. -/
def privateNets : List (String × PNet) :=
  [("10.0.0.0/8", ⟨true, v4 10 0 0 0, 8⟩),
   ("127.0.0.0/8", ⟨true, v4 127 0 0 0, 8⟩),
   ("172.16.0.0/12", ⟨true, v4 172 16 0 0, 12⟩),
   ("192.168.0.0/16", ⟨true, v4 192 168 0 0, 16⟩),
   ("::1/128", ⟨false, 1, 128⟩),
   ("fc00::/7", ⟨false, 0xfc00 * 2 ^ 112, 7⟩),
   ("fe80::/10", ⟨false, 0xfe80 * 2 ^ 112, 10⟩)]

/-- The list `private` of `load_database`. -/
def privateStrings : List String := privateNets.map (fun p => p.1)

/-- The header branch of the row loop: insert every private network with
record `(pnet, 0, '*')`, assign `database['asn'][0]` and
`database['country']['*'] = [0]`. -/
def seedHeader (db : Database) : Database :=
  { network :=
      privateNets.foldl (fun t p => NetTree.insert t p.2 (p.1, 0, "*")) db.network,
    asn := alistSet db.asn 0 ⟨"Locally routed network", "*", privateStrings⟩,
    country := alistSet db.country "*" [0] }

/-- One iteration of the row loop of `load_database`: the header branch,
or `asn = int(row[1])`, the trie insert, and the two dictionary updates.
Both possible exceptions occur before any state is mutated. -/
def stepRow (db : Database) (r : Row) : Except LoadError Database :=
  if isHeaderRow r then .ok (seedHeader db)
  else
    match pyInt r.asnField with
    | none => .error (.badASN r.asnField)
    | some asn =>
        match r.network.parse with
        | none => .error (.badNet r.network.text)
        | some pn =>
            let tree := NetTree.insert db.network pn (r.network.text, asn, r.country)
            let asnMap := match alistLookup db.asn asn with
              | none => alistSet db.asn asn ⟨r.orgName, r.country, [r.network.text]⟩
              | some e =>
                  alistSet db.asn asn
                    { e with networks := e.networks ++ [r.network.text] }
            let countryMap := match alistLookup db.country r.country with
              | none => alistSet db.country r.country [asn]
              | some l => alistSet db.country r.country (l ++ [asn])
            .ok ⟨tree, asnMap, countryMap⟩

/-- The row loop of `load_database` over the CSV rows.  `self.database` is
mutated in place, so an exception leaves the rows processed so far in the
published state: the result carries the state at the moment of the error. -/
def loadRows : Database → List Row → Database × Option LoadError
  | db, [] => (db, none)
  | db, r :: rest =>
      match stepRow db r with
      | .ok db2 => loadRows db2 rest
      | .error e => (db, some e)

/-- `IPGuide.find_network`. -/
def find_network (db : Database) (n : PNet) : Option NetRec :=
  NetTree.search db.network n

/-- `IPGuide.networks_for_asn`. -/
def networks_for_asn (db : Database) (asn : Int) : List String :=
  match alistLookup db.asn asn with
  | none => []
  | some e => e.networks

/-- `IPGuide.find_asn`. -/
def find_asn (db : Database) (asn : Int) : Option ASNEntry :=
  alistLookup db.asn asn

/-- `IPGuide.find_country`. -/
def find_country (db : Database) (c : String) : List Int :=
  match alistLookup db.country c with
  | none => []
  | some l => l

/-- The argument of `IPGuide.get_networks`: a single string or a list
(`if not isinstance(spec, list): spec = [spec]`). -/
inductive SpecArg where
  | one : String → SpecArg
  | many : List String → SpecArg

/-- The listified specifier. -/
def specList : SpecArg → List String
  | .one s => [s]
  | .many l => l

/-- The loop body of `get_networks` over the listified specifiers;
`none` models an exception escaping the loop (only `int()` can raise). -/
def processSpecs (db : Database) : List String → Option (List String)
  | [] => some []
  | s :: rest =>
      if strStarts s "ASN:" then
        match pyInt (splitSecond s) with
        | none => none
        | some n =>
            match processSpecs db rest with
            | none => none
            | some res => some (networks_for_asn db n ++ res)
      else
        match processSpecs db rest with
        | none => none
        | some res => some (s :: res)

/-- `IPGuide.get_networks`: on success the accumulated result, on an
exception the (listified) `spec` is returned unchanged by the
`except` branch. -/
def get_networks (db : Database) (spec : SpecArg) : List String :=
  match processSpecs db (specList spec) with
  | some res => res
  | none => specList spec

/-- Specification-side description of `networks_for_asn` output: the
network texts of the non-header rows whose ASN field parses to `a`, in
row order, duplicates kept. -/
def observedNets (rows : List Row) (a : Int) : List String :=
  rows.filterMap fun r =>
    if isHeaderRow r = false ∧ pyInt r.asnField = some a then some r.network.text
    else none

/-- Specification-side expansion of one specifier: an `ASN:'n'` item
becomes `networksForASN(n)`, anything else stays literal. -/
def expandSpec (db : Database) (s : String) : List String :=
  if strStarts s "ASN:" then
    match pyInt (splitSecond s) with
    | some n => networks_for_asn db n
    | none => [s]
  else [s]

/-- Specification-side result of `resolveSpecifiers`: the concatenation of
the expansions in input order. -/
def expandAll (db : Database) : List String → List String
  | [] => []
  | s :: rest => expandSpec db s ++ expandAll db rest

/-- A trie populated by a sequence of `(network, record)` insertions,
starting from the empty tree. -/
def buildNets (L : List (PNet × NetRec)) : NetTree NetRec :=
  L.foldl (fun t e => NetTree.insert t e.1 e.2) NetTree.empty

/-- The record of the last insertion whose canonical path is exactly `p`. -/
def lastNetData : List (PNet × NetRec) → List Bool → Option NetRec
  | [], _ => none
  | e :: rest, p =>
      oget (lastNetData rest p) (if e.1.bits = p then some e.2 else none)

theorem oget_some_mid {α : Type} (a : Option α) (v : α) (c : Option α) :
    oget (oget a (some v)) c = oget a (some v) := by
  cases a <;> rfl

theorem dataAt_foldl_insert (L : List (PNet × NetRec)) (t : NetTree NetRec)
    (p : List Bool) :
    NetTree.dataAt (L.foldl (fun t e => NetTree.insert t e.1 e.2) t) p =
      oget (lastNetData L p) (NetTree.dataAt t p) := by
  induction L generalizing t with
  | nil => simp [lastNetData, oget]
  | cons e rest ih =>
      rw [List.foldl_cons, ih]
      show oget (lastNetData rest p)
          (NetTree.dataAt (NetTree.insertBits t e.1.bits e.2) p) =
        oget (oget (lastNetData rest p) (if e.1.bits = p then some e.2 else none))
          (NetTree.dataAt t p)
      rw [dataAt_insert]
      by_cases hp : e.1.bits = p
      · rw [if_pos hp, if_pos hp.symm, oget_some_mid]
      · rw [if_neg hp, if_neg (fun h => hp h.symm), oget_assoc]
        rfl

theorem dataAt_buildNets (L : List (PNet × NetRec)) (p : List Bool) :
    NetTree.dataAt (buildNets L) p = lastNetData L p := by
  rw [buildNets, dataAt_foldl_insert, dataAt_empty, oget_none]

theorem lastNetData_mem (L : List (PNet × NetRec)) (p : List Bool) (r : NetRec)
    (h : lastNetData L p = some r) : ∃ e ∈ L, e.1.bits = p ∧ e.2 = r := by
  induction L with
  | nil => exact absurd h (by simp [lastNetData])
  | cons e rest ih =>
      rw [lastNetData] at h
      cases hrest : lastNetData rest p with
      | some r2 =>
          rw [hrest] at h
          simp only [oget] at h
          obtain ⟨e2, he2, hb, hr⟩ := ih (hrest.trans h)
          exact ⟨e2, List.mem_cons_of_mem _ he2, hb, hr⟩
      | none =>
          rw [hrest] at h
          simp only [oget] at h
          by_cases hp : e.1.bits = p
          · rw [if_pos hp] at h
            cases h
            exact ⟨e, List.mem_cons_self _ _, hp, rfl⟩
          · rw [if_neg hp] at h
            cases h

/-- Dictionary update semantics: lookup after assignment. -/
theorem alistLookup_alistSet {κ β : Type} [DecidableEq κ]
    (l : List (κ × β)) (k : κ) (v : β) (k2 : κ) :
    alistLookup (alistSet l k v) k2 = if k2 = k then some v else alistLookup l k2 := by
  induction l with
  | nil => simp [alistLookup, alistSet]
  | cons kw rest ih =>
      obtain ⟨k1, w⟩ := kw
      by_cases h1 : k = k1
      · subst h1
        by_cases h2 : k2 = k <;> simp [alistLookup, alistSet, h2]
      · by_cases h2 : k2 = k1
        · subst h2
          simp [alistLookup, alistSet, h1, Ne.symm h1]
        · simp [alistLookup, alistSet, h1, h2, ih]

theorem observedNets_cons_skip (r : Row) (rest : List Row) (a : Int)
    (hcond : ¬(isHeaderRow r = false ∧ pyInt r.asnField = some a)) :
    observedNets (r :: rest) a = observedNets rest a := by
  simp only [observedNets, List.filterMap_cons, if_neg hcond]

theorem observedNets_cons_take (r : Row) (rest : List Row) (a : Int)
    (h1 : isHeaderRow r = false) (h2 : pyInt r.asnField = some a) :
    observedNets (r :: rest) a = r.network.text :: observedNets rest a := by
  simp only [observedNets, List.filterMap_cons, if_pos (And.intro h1 h2)]

theorem nfa_seedHeader (db : Database) (a : Int) (ha : a ≠ 0) :
    networks_for_asn (seedHeader db) a = networks_for_asn db a := by
  simp [networks_for_asn, seedHeader, alistLookup_alistSet, ha]

/-- Splitting the row loop across a concatenation of row lists. -/
theorem loadRows_append (xs ys : List Row) (db : Database) :
    loadRows db (xs ++ ys) =
      match loadRows db xs with
      | (d, none) => loadRows d ys
      | (d, some e) => (d, some e) := by
  induction xs generalizing db with
  | nil => rfl
  | cons x xs ih =>
      show loadRows db ((x :: xs) ++ ys) = _
      rw [List.cons_append, loadRows, loadRows]
      cases stepRow db x with
      | ok d2 => exact ih d2
      | error e => rfl

/-- How one successful row step changes `networks_for_asn`. -/
theorem nfa_stepRow (db d2 : Database) (r : Row) (a : Int)
    (hok : stepRow db r = .ok d2)
    (hcase : a ≠ 0 ∨ isHeaderRow r = false) :
    networks_for_asn d2 a =
      networks_for_asn db a ++ observedNets [r] a := by
  cases hh : isHeaderRow r with
  | true =>
      have ha : a ≠ 0 := by
        cases hcase with
        | inl h => exact h
        | inr h => rw [hh] at h; exact absurd h (by simp)
      rw [stepRow, if_pos hh] at hok
      cases hok
      rw [nfa_seedHeader db a ha,
        observedNets_cons_skip r [] a (by simp [hh]), observedNets]
      simp
  | false =>
      rw [stepRow, if_neg (by simp [hh])] at hok
      cases hp : pyInt r.asnField with
      | none => rw [hp] at hok; cases hok
      | some m =>
          rw [hp] at hok
          cases hq : r.network.parse with
          | none => rw [hq] at hok; cases hok
          | some pn =>
              rw [hq] at hok
              dsimp only at hok
              cases hok
              by_cases ha : a = m
              · subst ha
                rw [observedNets_cons_take r [] a hh hp, observedNets]
                cases he : alistLookup db.asn a with
                | none =>
                    simp [networks_for_asn, he, alistLookup_alistSet]
                | some e =>
                    simp [networks_for_asn, he, alistLookup_alistSet]
              · have hcond : ¬(isHeaderRow r = false ∧ pyInt r.asnField = some a) := by
                  simp [hh, hp]
                  exact fun h => ha h.symm
                rw [observedNets_cons_skip r [] a hcond, observedNets]
                cases he : alistLookup db.asn m with
                | none =>
                    simp [networks_for_asn, he, alistLookup_alistSet, ha]
                | some e =>
                    simp [networks_for_asn, he, alistLookup_alistSet, ha]

/-- Accumulation of `networks_for_asn` along a successful load, for any
ASN other than 0, and for any ASN at all when no header row occurs. -/
theorem nfa_loadRows (rows : List Row) (db db2 : Database) (a : Int)
    (hcase : a ≠ 0 ∨ ∀ r ∈ rows, isHeaderRow r = false)
    (h : loadRows db rows = (db2, none)) :
    networks_for_asn db2 a = networks_for_asn db a ++ observedNets rows a := by
  induction rows generalizing db with
  | nil =>
      rw [loadRows] at h
      cases h
      simp [observedNets]
  | cons r rest ih =>
      rw [loadRows] at h
      cases hs : stepRow db r with
      | error e => rw [hs] at h; simp at h
      | ok d2 =>
          rw [hs] at h
          have hcase2 : a ≠ 0 ∨ ∀ r2 ∈ rest, isHeaderRow r2 = false := by
            cases hcase with
            | inl h2 => exact Or.inl h2
            | inr h2 => exact Or.inr fun r2 hr2 => h2 r2 (List.mem_cons_of_mem _ hr2)
          have hstep : networks_for_asn d2 a =
              networks_for_asn db a ++ observedNets [r] a := by
            refine nfa_stepRow db d2 r a hs ?_
            cases hcase with
            | inl h2 => exact Or.inl h2
            | inr h2 => exact Or.inr (h2 r (List.mem_cons_self _ _))
          have hrec := ih d2 hcase2 h
          have hobs : observedNets (r :: rest) a =
              observedNets [r] a ++ observedNets rest a := by
            simp only [observedNets, List.filterMap_cons, List.filterMap_nil]
            cases hc : (if isHeaderRow r = false ∧ pyInt r.asnField = some a
                then some r.network.text else none) <;> simp
          rw [hrec, hstep, hobs, List.append_assoc]

/-- The observable effect of the header-row seeding: ASN 0 carries the
synthetic locally-routed entry and country `*` contains ASN 0. -/
def seededOK (db : Database) : Prop :=
  (∃ e, alistLookup db.asn 0 = some e ∧ e.name = "Locally routed network" ∧
    "10.0.0.0/8" ∈ e.networks ∧ "127.0.0.0/8" ∈ e.networks) ∧
  (∃ l, alistLookup db.country "*" = some l ∧ (0 : Int) ∈ l)

theorem seedHeader_seeded (db : Database) : seededOK (seedHeader db) := by
  constructor
  · refine ⟨⟨"Locally routed network", "*", privateStrings⟩, ?_, rfl, ?_, ?_⟩
    · simp [seedHeader, alistLookup_alistSet]
    · simp [privateStrings, privateNets]
    · simp [privateStrings, privateNets]
  · exact ⟨[0], by simp [seedHeader, alistLookup_alistSet], by simp⟩

theorem stepRow_preserves_seeded (db d2 : Database) (r : Row)
    (hseed : seededOK db) (hok : stepRow db r = .ok d2) : seededOK d2 := by
  cases hh : isHeaderRow r with
  | true =>
      rw [stepRow, if_pos hh] at hok
      cases hok
      exact seedHeader_seeded db
  | false =>
      rw [stepRow, if_neg (by simp [hh])] at hok
      cases hp : pyInt r.asnField with
      | none => rw [hp] at hok; cases hok
      | some m =>
          rw [hp] at hok
          cases hq : r.network.parse with
          | none => rw [hq] at hok; cases hok
          | some pn =>
              rw [hq] at hok
              dsimp only at hok
              cases hok
              obtain ⟨⟨e, he, hname, h10, h127⟩, ⟨l, hl, h0⟩⟩ := hseed
              constructor
              · by_cases hm : m = 0
                · subst hm
                  refine ⟨{ e with networks := e.networks ++ [r.network.text] },
                    ?_, hname, List.mem_append_left _ h10,
                    List.mem_append_left _ h127⟩
                  dsimp only
                  rw [he]
                  dsimp only
                  rw [alistLookup_alistSet, if_pos rfl]
                · refine ⟨e, ?_, hname, h10, h127⟩
                  have hne : (0 : Int) ≠ m := fun h2 => hm h2.symm
                  cases he2 : alistLookup db.asn m <;>
                    (rw [alistLookup_alistSet, if_neg hne]; exact he)
              · by_cases hc : r.country = "*"
                · refine ⟨l ++ [m], ?_, List.mem_append_left _ h0⟩
                  dsimp only
                  rw [hc, hl]
                  dsimp only
                  rw [alistLookup_alistSet, if_pos rfl]
                · refine ⟨l, ?_, h0⟩
                  have hne : "*" ≠ r.country := fun h2 => hc h2.symm
                  cases hc2 : alistLookup db.country r.country <;>
                    (rw [alistLookup_alistSet, if_neg hne]; exact hl)

theorem loadRows_preserves_seeded (rows : List Row) (db db2 : Database)
    (hseed : seededOK db) (h : loadRows db rows = (db2, none)) : seededOK db2 := by
  induction rows generalizing db with
  | nil => rw [loadRows] at h; cases h; exact hseed
  | cons r rest ih =>
      rw [loadRows] at h
      cases hs : stepRow db r with
      | error e => rw [hs] at h; simp at h
      | ok d2 =>
          rw [hs] at h
          exact ih d2 (stepRow_preserves_seeded db d2 r hseed hs) h

theorem loadRows_seeded_of_header (rows : List Row) (db db2 : Database)
    (hhead : ∃ r ∈ rows, isHeaderRow r = true)
    (h : loadRows db rows = (db2, none)) : seededOK db2 := by
  induction rows generalizing db with
  | nil => simp at hhead
  | cons r rest ih =>
      rw [loadRows] at h
      cases hs : stepRow db r with
      | error e => rw [hs] at h; simp at h
      | ok d2 =>
          rw [hs] at h
          cases hh : isHeaderRow r with
          | true =>
              rw [stepRow, if_pos hh] at hs
              cases hs
              exact loadRows_preserves_seeded rest _ db2 (seedHeader_seeded db) h
          | false =>
              obtain ⟨r0, hr0, hr0h⟩ := hhead
              cases List.mem_cons.mp hr0 with
              | inl heq => subst heq; rw [hh] at hr0h; cases hr0h
              | inr hmem => exact ih d2 ⟨r0, hmem, hr0h⟩ h

theorem processSpecs_ok (db : Database) (l : List String)
    (h : ∀ s ∈ l, strStarts s "ASN:" = true → (pyInt (splitSecond s)).isSome = true) :
    processSpecs db l = some (expandAll db l) := by
  induction l with
  | nil => rfl
  | cons s rest ih =>
      have ihr := ih fun s2 hs2 => h s2 (List.mem_cons_of_mem _ hs2)
      cases hS : strStarts s "ASN:" with
      | true =>
          have hsome := h s (List.mem_cons_self _ _) hS
          obtain ⟨n, hn⟩ := Option.isSome_iff_exists.mp hsome
          rw [processSpecs, if_pos hS, hn, ihr]
          simp [expandAll, expandSpec, hS, hn]
      | false =>
          rw [processSpecs, if_neg (by simp [hS]), ihr]
          simp [expandAll, expandSpec, hS]

theorem processSpecs_bad (db : Database) (l : List String)
    (h : ∃ s ∈ l, strStarts s "ASN:" = true ∧ pyInt (splitSecond s) = none) :
    processSpecs db l = none := by
  induction l with
  | nil => simp at h
  | cons s rest ih =>
      obtain ⟨s0, hs0, hS0, hp0⟩ := h
      cases List.mem_cons.mp hs0 with
      | inl heq =>
          subst heq
          rw [processSpecs, if_pos hS0, hp0]
      | inr hmem =>
          have ihr := ih ⟨s0, hmem, hS0, hp0⟩
          cases hS : strStarts s "ASN:" with
          | true =>
              rw [processSpecs, if_pos hS]
              cases hp : pyInt (splitSecond s) with
              | none => rfl
              | some n => rw [ihr]
          | false =>
              rw [processSpecs, if_neg (by simp [hS]), ihr]

/-- The conventional CSV header row `network,asn,name,country`. -/
def headerRow : Row := ⟨⟨"network", none⟩, "asn", "name", "country"⟩

/-- A well-formed data row `1.2.3.0/24,100,ExampleOrg,US`. -/
def goodRow : Row :=
  ⟨⟨"1.2.3.0/24", some ⟨true, v4 1 2 3 0, 24⟩⟩, "100", "ExampleOrg", "US"⟩

/-- A data row whose ASN field `x` is not an integer. -/
def badRow : Row :=
  ⟨⟨"9.9.9.0/24", some ⟨true, v4 9 9 9 0, 24⟩⟩, "x", "BadOrg", "US"⟩

/-- The database after loading just a header row. -/
def seededDB : Database := (loadRows emptyDB [headerRow]).1

/-- Claim C1 (code bug): the record of an inserted `/32` network sits at
the node addressed by its own host address (full 128-bit mapped path), yet
searching that very address returns absent: the search loop tests
`here[2]` before descending and never tests the node reached after the
last bit, so a record at depth equal to the query length is skipped. -/
theorem c1_bug_eval :
    NetTree.dataAt
        (NetTree.insert NetTree.empty (PNet.mk true (v4 1 2 3 4) 32)
          (("1.2.3.4/32", (100 : Int), "US") : NetRec))
        (hostV4 (v4 1 2 3 4)).bits = some ("1.2.3.4/32", 100, "US") ∧
    NetTree.search
        (NetTree.insert NetTree.empty (PNet.mk true (v4 1 2 3 4) 32)
          (("1.2.3.4/32", (100 : Int), "US") : NetRec))
        (hostV4 (v4 1 2 3 4)) = none := by decide

/-- Claim C2 (amended): the private-range seeding happens when a header
row is consumed; after any completed load whose rows include a header row,
ASN 0 carries the synthetic locally-routed entry with at least
`10.0.0.0/8` and `127.0.0.0/8`, and country `*` contains ASN 0. -/
theorem c2_theorem (rows : List Row) (db : Database)
    (hhead : ∃ r ∈ rows, isHeaderRow r = true)
    (hload : loadRows emptyDB rows = (db, none)) :
    (∃ e, find_asn db 0 = some e ∧ e.name = "Locally routed network" ∧
      "10.0.0.0/8" ∈ e.networks ∧ "127.0.0.0/8" ∈ e.networks) ∧
    (0 : Int) ∈ find_country db "*" := by
  obtain ⟨⟨e, he, hn, h1, h2⟩, ⟨l, hl, h0⟩⟩ :=
    loadRows_seeded_of_header rows emptyDB db hhead hload
  refine ⟨⟨e, he, hn, h1, h2⟩, ?_⟩
  rw [find_country, hl]
  exact h0

/-- Witness for C2 at the one-row input consisting of the header row. -/
theorem c2_witness :
    (∃ e, find_asn seededDB 0 = some e ∧ e.name = "Locally routed network" ∧
      "10.0.0.0/8" ∈ e.networks ∧ "127.0.0.0/8" ∈ e.networks) ∧
    (0 : Int) ∈ find_country seededDB "*" :=
  c2_theorem [headerRow] seededDB ⟨headerRow, List.mem_cons_self _ _, by decide⟩ rfl

/-- Counterexample to C2 as stated: a completed load without a header row
seeds nothing — ASN 0 is absent and country `*` is empty. -/
theorem c2_counterexample :
    (loadRows emptyDB [goodRow]).2 = none ∧
    find_asn (loadRows emptyDB [goodRow]).1 0 = none ∧
    find_country (loadRows emptyDB [goodRow]).1 "*" = [] := by decide

/-- Claim C3 (amended): a malformed row (non-integer ASN field, or an
unparseable network with an integer ASN) makes its step raise, and the
load then stops at the first such row — but the state published is the
partial index built from the rows before it, not the pre-load state. -/
theorem c3_theorem :
    (∀ (pre : List Row) (r : Row) (rest : List Row) (db : Database) (e : LoadError),
        loadRows emptyDB pre = (db, none) → stepRow db r = .error e →
        loadRows emptyDB (pre ++ r :: rest) = (db, some e)) ∧
    (∀ (db : Database) (r : Row), isHeaderRow r = false →
        (pyInt r.asnField = none ∨ r.network.parse = none) →
        ∃ e, stepRow db r = .error e) := by
  constructor
  · intro pre r rest db e h1 h2
    rw [loadRows_append, h1]
    dsimp only
    rw [loadRows, h2]
  · intro db r hh hbad
    cases hbad with
    | inl h =>
        exact ⟨.badASN r.asnField, by rw [stepRow, if_neg (by simp [hh]), h]⟩
    | inr h =>
        cases hp : pyInt r.asnField with
        | none =>
            exact ⟨.badASN r.asnField, by rw [stepRow, if_neg (by simp [hh]), hp]⟩
        | some m =>
            exact ⟨.badNet r.network.text,
              by rw [stepRow, if_neg (by simp [hh]), hp, h]⟩

/-- Witness for C3: a good row followed by a bad row aborts on the bad row
with the one-row partial state published. -/
theorem c3_witness :
    loadRows emptyDB ([goodRow] ++ badRow :: []) =
      ((loadRows emptyDB [goodRow]).1, some (.badASN "x")) :=
  c3_theorem.1 [goodRow] badRow [] (loadRows emptyDB [goodRow]).1
    (.badASN "x") rfl rfl

/-- Counterexample to C3 as stated: after the aborted load the record of
the preceding good row is observable through `find_asn` — the state is not
the one of a load that never started. -/
theorem c3_counterexample :
    (loadRows emptyDB [goodRow, badRow]).2 = some (.badASN "x") ∧
    find_asn (loadRows emptyDB [goodRow, badRow]).1 100 =
      some ⟨"ExampleOrg", "US", ["1.2.3.0/24"]⟩ := by decide

/-- An IPv6 network used in the C4 witness: `2001:db8::/32`. -/
def v6DemoNet : PNet := ⟨false, 0x20010db8 * 2 ^ 96, 32⟩

/-- Claim C4 (amended): over a trie populated only with IPv6 ranges none
of which contains the IPv4-mapped form of the queried IPv4 address (its
canonical path is a strict front segment of the query path), the query
returns absent; and the concrete IPv4 insert/query pair
`192.0.2.0/24` / `192.0.2.5` succeeds. -/
theorem c4_theorem :
    (∀ (L : List (PNet × NetRec)) (a : Nat),
        (∀ e ∈ L, e.1.isV4 = false) →
        (∀ e ∈ L, ¬(e.1.bits.length < (hostV4 a).bits.length ∧
            (hostV4 a).bits.take e.1.bits.length = e.1.bits)) →
        NetTree.search (buildNets L) (hostV4 a) = none) ∧
    NetTree.search
        (NetTree.insert NetTree.empty (PNet.mk true (v4 192 0 2 0) 24)
          (("192.0.2.0/24", (100 : Int), "US") : NetRec))
        (hostV4 (v4 192 0 2 5)) = some ("192.0.2.0/24", 100, "US") := by
  constructor
  · intro L a hv6 hnc
    rw [NetTree.search, searchBits_none_eq]
    cases hres : NetTree.searchAux (buildNets L) (hostV4 a).bits with
    | none => rfl
    | some r =>
        obtain ⟨k, hk, hdata⟩ := searchAux_found _ _ _ hres
        rw [dataAt_buildNets] at hdata
        obtain ⟨e, heL, hb, _⟩ := lastNetData_mem L _ r hdata
        have hlen : e.1.bits.length = k := by
          rw [hb, List.length_take]
          exact Nat.min_eq_left (le_of_lt hk)
        exact absurd ⟨by rw [hlen]; exact hk, by rw [hlen, hb]⟩ (hnc e heL)
  · decide

/-- Witness for C4: a trie holding only `2001:db8::/32` answers absent for
the IPv4 address `8.8.8.8`. -/
theorem c4_witness :
    NetTree.search
        (buildNets [(v6DemoNet, (("2001:db8::/32", (42 : Int), "EU") : NetRec))])
        (hostV4 (v4 8 8 8 8)) = none :=
  c4_theorem.1 [(v6DemoNet, ("2001:db8::/32", 42, "EU"))] (v4 8 8 8 8)
    (by decide) (by decide)

/-- Counterexample to C4 as stated: inserting only the IPv6 range `::/0`
and querying the IPv4 address `192.0.2.5` returns that record, not
absent — the mapped prefix is inside `::/0`. -/
theorem c4_counterexample :
    NetTree.search
        (buildNets [(⟨false, 0, 0⟩, (("::/0", (99 : Int), "ZZ") : NetRec))])
        (hostV4 (v4 192 0 2 5)) = some ("::/0", 99, "ZZ") := by decide

/-- Claim C5 (confirmed): if any item of the specifier list begins with
`ASN:` and its number part does not parse as an integer, `get_networks`
returns the original list unchanged instead of raising. -/
theorem c5_theorem (db : Database) (l : List String)
    (h : ∃ s ∈ l, strStarts s "ASN:" = true ∧ pyInt (splitSecond s) = none) :
    get_networks db (SpecArg.many l) = l := by
  show (match processSpecs db l with | some res => res | none => l) = l
  rw [processSpecs_bad db l h]

/-- Witness for C5 at the malformed specifier `ASN:zz`. -/
theorem c5_witness : get_networks emptyDB (SpecArg.many ["ASN:zz"]) = ["ASN:zz"] :=
  c5_theorem emptyDB ["ASN:zz"] (by decide)

/-- Claim C6 (confirmed): when every `ASN:` item parses, `get_networks`
returns the concatenation, in input order, of `networks_for_asn` for each
`ASN:` item and the literal string for every other item. -/
theorem c6_theorem (db : Database) (l : List String)
    (h : ∀ s ∈ l, strStarts s "ASN:" = true → (pyInt (splitSecond s)).isSome = true) :
    get_networks db (SpecArg.many l) = expandAll db l := by
  show (match processSpecs db l with | some res => res | none => l) = expandAll db l
  rw [processSpecs_ok db l h]

/-- Witness for C6: after a seeded load,
`get_networks(["ASN:0", "8.8.8.8"])` is the private-range list followed by
the literal `8.8.8.8`. -/
theorem c6_witness :
    get_networks seededDB (SpecArg.many ["ASN:0", "8.8.8.8"]) =
      privateStrings ++ ["8.8.8.8"] := by
  rw [c6_theorem seededDB ["ASN:0", "8.8.8.8"] (by decide)]
  decide

/-- Claim C7 (amended): after inserting the same exact network twice with
two different records, the second record is the one attached at that
network's node, for every prior trie state; a lookup of an address inside
the network returns the second record provided the network's canonical
path is strictly shorter than the query path and no deeper node on the
query path carries a record. -/
theorem c7_theorem {α : Type} (t : NetTree α) (p q : List Bool) (r1 r2 : α)
    (_hdist : r1 ≠ r2) (hpre : q.take p.length = p) (hlen : p.length < q.length)
    (hdeep : ∀ j, j < q.length → p.length < j →
      NetTree.dataAt (NetTree.insertBits (NetTree.insertBits t p r1) p r2)
        (q.take j) = none) :
    NetTree.dataAt (NetTree.insertBits (NetTree.insertBits t p r1) p r2) p =
      some r2 ∧
    NetTree.searchBits (NetTree.insertBits (NetTree.insertBits t p r1) p r2)
      q none = some r2 := by
  have hdata : NetTree.dataAt
      (NetTree.insertBits (NetTree.insertBits t p r1) p r2) p = some r2 := by
    rw [dataAt_insert]
    simp
  refine ⟨hdata, ?_⟩
  rw [searchBits_none_eq]
  refine searchAux_deepest q _ p.length r2 hlen ?_ hdeep
  rw [hpre]
  exact hdata

/-- The canonical path of `10.0.0.0/8` (length 104). -/
def p8 : List Bool := (PNet.mk true (v4 10 0 0 0) 8).bits

/-- The query path of the host address `10.1.2.3` (length 128). -/
def q10123 : List Bool := (hostV4 (v4 10 1 2 3)).bits

/-- Witness for C7: double-inserting `10.0.0.0/8` and looking up
`10.1.2.3`. -/
theorem c7_witness :
    NetTree.dataAt
        (NetTree.insertBits (NetTree.insertBits NetTree.empty p8 (1 : Nat)) p8 2)
        p8 = some 2 ∧
    NetTree.searchBits
        (NetTree.insertBits (NetTree.insertBits NetTree.empty p8 (1 : Nat)) p8 2)
        q10123 none = some 2 :=
  c7_theorem NetTree.empty p8 q10123 1 2 (by decide) (by decide) (by decide)
    (by decide)

/-- The canonical path of `5.6.7.8/32` (full length 128). -/
def p32 : List Bool := (PNet.mk true (v4 5 6 7 8) 32).bits

/-- Counterexample to C7 as stated: double-inserting the host network
`5.6.7.8/32` attaches the second record, yet looking up the address
`5.6.7.8` inside it (the same 128-bit path) returns absent. -/
theorem c7_counterexample :
    NetTree.dataAt
        (NetTree.insertBits (NetTree.insertBits NetTree.empty p32 (1 : Nat)) p32 2)
        p32 = some 2 ∧
    NetTree.searchBits
        (NetTree.insertBits (NetTree.insertBits NetTree.empty p32 (1 : Nat)) p32 2)
        p32 none = none := by decide

/-- Claim C8 (amended): for every ASN other than 0, and for every ASN when
no header row occurs, `networks_for_asn` after a completed load is exactly
the list of networks of the rows observed for that ASN, in row order with
duplicates; a header row resets the ASN 0 list to the seven private
ranges, so after the last header row ASN 0 is the private ranges followed
by the subsequent ASN 0 observations. -/
theorem c8_theorem :
    (∀ (rows : List Row) (db : Database) (a : Int),
        loadRows emptyDB rows = (db, none) → a ≠ 0 →
        networks_for_asn db a = observedNets rows a) ∧
    (∀ (rows : List Row) (db : Database) (a : Int),
        loadRows emptyDB rows = (db, none) →
        (∀ r ∈ rows, isHeaderRow r = false) →
        networks_for_asn db a = observedNets rows a) ∧
    (∀ (pre : List Row) (hd : Row) (post : List Row) (db : Database),
        isHeaderRow hd = true → (∀ r ∈ post, isHeaderRow r = false) →
        loadRows emptyDB (pre ++ hd :: post) = (db, none) →
        networks_for_asn db 0 = privateStrings ++ observedNets post 0) := by
  refine ⟨?_, ?_, ?_⟩
  · intro rows db a h ha
    have hacc := nfa_loadRows rows emptyDB db a (Or.inl ha) h
    simpa [networks_for_asn, emptyDB, alistLookup] using hacc
  · intro rows db a h hnh
    have hacc := nfa_loadRows rows emptyDB db a (Or.inr hnh) h
    simpa [networks_for_asn, emptyDB, alistLookup] using hacc
  · intro pre hd post db hh hnh h
    rw [loadRows_append] at h
    rcases h1 : loadRows emptyDB pre with ⟨d1, err⟩
    rw [h1] at h
    cases err with
    | some e => simp at h
    | none =>
        dsimp only at h
        rw [loadRows, stepRow, if_pos hh] at h
        dsimp only at h
        have hacc := nfa_loadRows post (seedHeader d1) db 0 (Or.inr hnh) h
        rw [hacc]
        have hseed : networks_for_asn (seedHeader d1) 0 = privateStrings := by
          simp [networks_for_asn, seedHeader, alistLookup_alistSet]
        rw [hseed]

/-- Rows for the C8 witness: a header and a repeated data row. -/
def dupRows : List Row := [headerRow, goodRow, goodRow]

/-- Witness for C8: ASN 100 gets its network twice, in order. -/
theorem c8_witness :
    networks_for_asn (loadRows emptyDB dupRows).1 100 = observedNets dupRows 100 ∧
    observedNets dupRows 100 = ["1.2.3.0/24", "1.2.3.0/24"] :=
  ⟨c8_theorem.1 dupRows (loadRows emptyDB dupRows).1 100 rfl (by decide),
   by decide⟩

/-- Rows for the C8 counterexample: an ASN 0 data row before the header. -/
def preHeaderRows : List Row :=
  [⟨⟨"1.2.3.0/24", some ⟨true, v4 1 2 3 0, 24⟩⟩, "0", "EarlyOrg", "US"⟩, headerRow]

/-- Counterexample to C8 as stated: the load observed `1.2.3.0/24` for
ASN 0 (its ASN field parses to 0 and it is not a header), the load
completed, yet `networks_for_asn 0` does not contain it — the header
seeding overwrote the ASN 0 entry. -/
theorem c8_counterexample :
    (loadRows emptyDB preHeaderRows).2 = none ∧
    isHeaderRow (⟨⟨"1.2.3.0/24", some ⟨true, v4 1 2 3 0, 24⟩⟩, "0", "EarlyOrg", "US"⟩ : Row) = false ∧
    pyInt "0" = some 0 ∧
    ¬ "1.2.3.0/24" ∈ networks_for_asn (loadRows emptyDB preHeaderRows).1 0 := by
  decide

/-- Claim C9 (confirmed): inserting at path `p` attaches the record at
exactly the node addressed by `p`, changes the record of no other node,
and leaves the node (with its entire subtree) at every path that is not a
front segment of `p` untouched. -/
theorem c9_theorem {α : Type} (t : NetTree α) (p : List Bool) (d : α)
    (q : List Bool) :
    NetTree.dataAt (NetTree.insertBits t p d) p = some d ∧
    (q ≠ p → NetTree.dataAt (NetTree.insertBits t p d) q = NetTree.dataAt t q) ∧
    (p.take q.length ≠ q →
      NetTree.nodeAt (NetTree.insertBits t p d) q = NetTree.nodeAt t q) := by
  refine ⟨?_, ?_, ?_⟩
  · rw [dataAt_insert]
    simp
  · intro hq
    rw [dataAt_insert, if_neg hq]
  · intro hq
    exact nodeAt_insert_off p t d q hq

/-- A small concrete trie for the C9 witness. -/
def c9tree : NetTree Nat := NetTree.insertBits NetTree.empty [true, false] 5

/-- Witness for C9 at paths `[false, true]` (inserted) and `[true, false]`
(untouched). -/
theorem c9_witness :
    NetTree.dataAt (NetTree.insertBits c9tree [false, true] 7) [false, true] =
      some 7 ∧
    NetTree.dataAt (NetTree.insertBits c9tree [false, true] 7) [true, false] =
      NetTree.dataAt c9tree [true, false] ∧
    NetTree.nodeAt (NetTree.insertBits c9tree [false, true] 7) [true, false] =
      NetTree.nodeAt c9tree [true, false] :=
  ⟨(c9_theorem c9tree [false, true] 7 [true, false]).1,
   (c9_theorem c9tree [false, true] 7 [true, false]).2.1 (by decide),
   (c9_theorem c9tree [false, true] 7 [true, false]).2.2 (by decide)⟩

/-- Claim C10 (confirmed): `get_networks` on a single bare string behaves
exactly as on the one-element list of it (`spec = [spec]`). -/
theorem c10_theorem (db : Database) (s : String) :
    get_networks db (SpecArg.one s) = get_networks db (SpecArg.many [s]) := rfl
